import Mathlib

/-!
Verification development for the dify-ai-provider stream-processing core.

The definitions below are a shallow embedding of `src/stream-parser.ts`
(ThinkTagParser, parseToolCalls) and of the streaming event coordinator in
`DifyChatLanguageModel.doStream` (the TransformStream callback together with
its captured `emitSegments` helper and `isActiveText` / `isActiveReasoning`
flags).  JavaScript strings are embedded as `List Char`; the impure
`generateId` callback is embedded as a function `Nat → String` applied to a
running counter; the JavaScript builtins `JSON.parse` and `JSON.stringify`
are external collaborators and are embedded as explicit function parameters
(`jp`, `jstr`).
-/

namespace Dify

/-! ### JS string primitives -/

/-- Whitespace as recognized by JavaScript `String.prototype.trim` (the
Unicode white-space set plus BOM; `ch.trim() === ""` in the lexer tests
exactly this predicate on a single character). -/
def jsIsWhitespace (c : Char) : Bool :=
  c = ' ' || c = '\t' || c = '\n' || c = '\r' || c = '\x0b' || c = '\x0c' ||
  c.val = 0xa0 || c.val = 0x1680 || (0x2000 ≤ c.val && c.val ≤ 0x200a) ||
  c.val = 0x2028 || c.val = 0x2029 || c.val = 0x202f || c.val = 0x205f ||
  c.val = 0x3000 || c.val = 0xfeff

/-- JavaScript `String.prototype.trim`: drop whitespace from both ends. -/
def jsTrim (s : List Char) : List Char :=
  ((s.dropWhile jsIsWhitespace).reverse.dropWhile jsIsWhitespace).reverse

/-- JavaScript `String.prototype.toLowerCase`, restricted to the ASCII
range (tool names in this code are ASCII; `Char.toLower` lowers exactly
the characters A-Z). -/
def strLower (s : String) : String := String.mk (s.data.map Char.toLower)

/-! ### Think tag lexer (`ThinkTagParser`, src/stream-parser.ts) -/

/-- The lexer's primary state: `text` | `maybe-open` | `reasoning` |
`maybe-close` in the source. -/
inductive LexState where
  | text
  | maybeOpen
  | reasoning
  | maybeClose
deriving DecidableEq, Repr

/-- Segment kind of a `ThinkSegment` (`"reasoning" | "text"`). -/
inductive SegKind where
  | text
  | reasoning
deriving DecidableEq, Repr

/-- `ThinkSegment = { type: "reasoning" | "text"; content: string }`. -/
structure ThinkSegment where
  kind : SegKind
  content : List Char
deriving DecidableEq, Repr

/-- The character-processing fields of `ThinkTagParser` (`state`, `buffer`,
`hasStarted`, `closed`, `inString`, `escape`).  They are grouped into one
record because `feed`'s per-character loop reads and writes exactly these
fields; the remaining two fields (`accumulated`, `textAccumulated`) are
updated around the loop and live in `ThinkTagParser` below. -/
structure LexCore where
  state : LexState
  buffer : List Char
  hasStarted : Bool
  closed : Bool
  inString : Bool
  escape : Bool
deriving DecidableEq, Repr

def LexCore.init : LexCore :=
  { state := .text, buffer := [], hasStarted := false, closed := false,
    inString := false, escape := false }

/-- The literal opening tag. -/
def openTag : List Char := ['<', 't', 'h', 'i', 'n', 'k', '>']

/-- The literal closing tag. -/
def closeTag : List Char := ['<', '/', 't', 'h', 'i', 'n', 'k', '>']

/-- One iteration of the `for` loop in `ThinkTagParser.feed`: consume one
character, returning the updated core state and the raw segments pushed for
this character (each `raw.push` of the source becomes a list element). -/
def feedChar (c : LexCore) (ch : Char) : LexCore × List ThinkSegment :=
  if !c.hasStarted && jsIsWhitespace ch then (c, [])
  else
    let c := { c with hasStarted := true }
    if c.inString then
      if c.escape then ({ c with escape := false }, [⟨.text, [ch]⟩])
      else if ch = '\\' then ({ c with escape := true }, [⟨.text, [ch]⟩])
      else if ch = '"' then ({ c with inString := false }, [⟨.text, [ch]⟩])
      else (c, [⟨.text, [ch]⟩])
    else if ch = '"' then ({ c with inString := true }, [⟨.text, [ch]⟩])
    else
      match c.state with
      | .text =>
        if ch = '<' && !c.closed then
          ({ c with state := .maybeOpen, buffer := ['<'] }, [])
        else (c, [⟨.text, [ch]⟩])
      | .maybeOpen =>
        let buf := c.buffer ++ [ch]
        if buf.isPrefixOf openTag then
          if buf = openTag then
            ({ c with state := .reasoning, buffer := [] }, [])
          else ({ c with buffer := buf }, [])
        else ({ c with state := .text, buffer := [] }, [⟨.text, buf⟩])
      | .reasoning =>
        if ch = '<' then
          ({ c with state := .maybeClose, buffer := ['<'] }, [])
        else (c, [⟨.reasoning, [ch]⟩])
      | .maybeClose =>
        let buf := c.buffer ++ [ch]
        if buf.isPrefixOf closeTag then
          if buf = closeTag then
            ({ c with state := .text, buffer := [], closed := true }, [])
          else ({ c with buffer := buf }, [])
        else ({ c with state := .reasoning, buffer := [] }, [⟨.reasoning, buf⟩])

/-- The whole per-character loop of `feed`: raw segments in push order. -/
def feedCore : LexCore → List Char → LexCore × List ThinkSegment
  | c, [] => (c, [])
  | c, ch :: rest =>
    let r₁ := feedChar c ch
    let r₂ := feedCore r₁.1 rest
    (r₂.1, r₁.2 ++ r₂.2)

/-- Merge step: prepend a segment to an already-merged list, fusing it with
the head when the kinds coincide.  `mergeSegs` below is the right-fold form
of the source's "merge consecutive same-type segments" loop. -/
def mergePush (s : ThinkSegment) : List ThinkSegment → List ThinkSegment
  | [] => [s]
  | t :: rest =>
    if s.kind = t.kind then ⟨s.kind, s.content ++ t.content⟩ :: rest
    else s :: t :: rest

def mergeSegs (l : List ThinkSegment) : List ThinkSegment :=
  l.foldr mergePush []

/-- Concatenation of the contents of the `text`-kind segments, in order
(the `textAccumulated` update loop at the end of `feed`). -/
def textContent (l : List ThinkSegment) : List Char :=
  (l.filterMap fun s => if s.kind = SegKind.text then some s.content else none).flatten

/-- The full `ThinkTagParser` object. -/
structure ThinkTagParser where
  core : LexCore
  accumulated : List Char
  textAccumulated : List Char
deriving DecidableEq, Repr

def ThinkTagParser.init : ThinkTagParser :=
  { core := LexCore.init, accumulated := [], textAccumulated := [] }

/-- `ThinkTagParser.feed`: accumulate the chunk, run the per-character loop,
merge consecutive same-kind raw segments, accumulate the merged plain text,
and return the merged segments. -/
def ThinkTagParser.feed (p : ThinkTagParser) (chunk : List Char) :
    ThinkTagParser × List ThinkSegment :=
  let r := feedCore p.core chunk
  let merged := mergeSegs r.2
  ({ core := r.1,
     accumulated := p.accumulated ++ chunk,
     textAccumulated := p.textAccumulated ++ textContent merged }, merged)

/-- `ThinkTagParser.flush`: drain a non-empty partial-match buffer as a
single best-effort segment (`reasoning` when a close tag was in progress,
else `text`, in which case it also extends the accumulated plain text). -/
def ThinkTagParser.flush (p : ThinkTagParser) :
    ThinkTagParser × List ThinkSegment :=
  if p.core.buffer = [] then (p, [])
  else
    let k := if p.core.state = LexState.maybeClose then SegKind.reasoning else SegKind.text
    ({ p with
        core := { p.core with buffer := [] },
        textAccumulated :=
          if k = SegKind.text then p.textAccumulated ++ p.core.buffer
          else p.textAccumulated },
     [⟨k, p.core.buffer⟩])

/-- `ThinkTagParser.reset`: clear `accumulated`, `buffer`, `state`, `closed`,
`hasStarted`, `inString` and `escape`, then replay the given full text
through `feed` (discarding the returned segments).  Note: exactly as in the
source, `textAccumulated` is NOT cleared. -/
def ThinkTagParser.reset (p : ThinkTagParser) (text : List Char) : ThinkTagParser :=
  (ThinkTagParser.feed
    { core := LexCore.init, accumulated := [], textAccumulated := p.textAccumulated }
    text).1

/-- `ThinkTagParser.getTextWithoutThink`: the trimmed accumulated plain text. -/
def ThinkTagParser.getTextWithoutThink (p : ThinkTagParser) : List Char :=
  jsTrim p.textAccumulated

/-! ### Tool call extractor (`parseToolCalls`, src/stream-parser.ts)

`JSON.parse` and `JSON.stringify` are JavaScript builtins, external to this
repository; they are embedded as function parameters `jp : String → Option
JsValue` (with `none` standing for a thrown parse error, which the source
catches and ignores) and `jstr : JsValue → String`.  `JsValue` models a
parsed JavaScript JSON value; a number is carried as its JavaScript string
rendering because this code never computes with numbers, it only coerces
them to strings. -/

inductive JsValue where
  | null
  | bool (b : Bool)
  | num (render : String)
  | str (s : String)
  | arr (elems : List JsValue)
  | obj (fields : List (String × JsValue))

mutual

/-- JavaScript `String(v)` coercion of a JSON value (`String(parsed.name)`
in the source). -/
def jsToString : JsValue → String
  | .null => "null"
  | .bool b => if b then "true" else "false"
  | .num r => r
  | .str s => s
  | .arr es => String.intercalate "," (jsArrayElems es)
  | .obj _ => "[object Object]"

/-- Array elements under `String(...)` coercion (`Array.prototype.join`:
`null` renders as the empty string). -/
def jsArrayElems : List JsValue → List String
  | [] => []
  | .null :: rest => "" :: jsArrayElems rest
  | e :: rest => jsToString e :: jsArrayElems rest

end

/-- Models `parsed && typeof parsed === "object"`: `null` is excluded by
truthiness, arrays have `typeof` `"object"`, and for every non-object value
the conjunction is false whatever its truthiness. -/
def JsValue.isNonNullObject : JsValue → Bool
  | .obj _ => true
  | .arr _ => true
  | _ => false

/-- Models `"k" in parsed` for the keys used by the source (`"name"`,
`"arguments"`): property lookup on an object; a JSON array has no such
string-named properties. -/
def JsValue.hasKey : JsValue → String → Bool
  | .obj fs, k => (fs.lookup k).isSome
  | _, _ => false

/-- Property access `parsed.k`; only used under a `hasKey` guard, so the
`.null` fallback for a missing key is unreachable in this code. -/
def JsValue.getKey : JsValue → String → JsValue
  | .obj fs, k => (fs.lookup k).getD .null
  | _, _ => .null

/-- `ParsedToolCall = { id: string; name: string; input: string }`. -/
structure ParsedToolCall where
  id : String
  name : String
  input : String
deriving DecidableEq, Repr

/-- Result record of `parseToolCalls`. -/
structure ToolParseResult where
  toolCalls : List ParsedToolCall
  cleanText : List Char
deriving DecidableEq, Repr

/-- The `try { JSON.parse ... }` block of the scan, applied to one candidate
substring: returns the allow-list's canonical-cased name and the compactly
re-serialized `arguments` when the candidate parses to an object carrying
both a `name` key and an `arguments` key whose name matches the allow-list
case-insensitively (first match in allow-list order); `none` otherwise. -/
def candMatch (jp : String → Option JsValue) (jstr : JsValue → String)
    (toolNames : List String) (cand : List Char) : Option (String × String) :=
  match jp (String.mk cand) with
  | none => none
  | some parsed =>
    if parsed.isNonNullObject && parsed.hasKey "name" && parsed.hasKey "arguments" then
      let toolName := strLower (jsToString (parsed.getKey "name"))
      let lowerToolNames := toolNames.map strLower
      match lowerToolNames.findIdx? (· = toolName) with
      | some originalIdx => some (toolNames.getD originalIdx "", jstr (parsed.getKey "arguments"))
      | none => none
    else none

/-- Mutable state of the scan loop in `parseToolCalls` (`depth` is a
JavaScript number and is embedded as `Int`; `startIdx = -1` becomes
`none`). -/
structure ScanSt where
  depth : Int
  inString : Bool
  escape : Bool
  startIdx : Option Nat
  calls : List ParsedToolCall
  matched : List (List Char)

def ScanSt.init : ScanSt :=
  { depth := 0, inString := false, escape := false, startIdx := none,
    calls := [], matched := [] }

/-- One iteration of the scan loop of `parseToolCalls`, on the indexed
character `(i, ch)`.  The id of the k-th call pushed is `gen (baseId + k)`,
embedding the successive results of the impure `genId` callback. -/
def scanStep (jp : String → Option JsValue) (jstr : JsValue → String)
    (toolNames : List String) (gen : Nat → String) (baseId : Nat)
    (text : List Char) (st : ScanSt) (ic : Nat × Char) : ScanSt :=
  let i := ic.1
  let ch := ic.2
  if st.escape then { st with escape := false }
  else if ch = '\\' then { st with escape := true }
  else if ch = '"' then { st with inString := !st.inString }
  else if st.inString then st
  else if ch = '{' then
    let st := if st.depth = 0 then { st with startIdx := some i } else st
    { st with depth := st.depth + 1 }
  else if ch = '}' then
    let d0 := st.depth - 1
    let d := if d0 < 0 then 0 else d0
    match st.startIdx with
    | some s =>
      if d = 0 then
        let jsonCandidate := (text.drop s).take (i + 1 - s)
        match candMatch jp jstr toolNames jsonCandidate with
        | some nmInp =>
          { st with
            depth := d
            startIdx := none
            calls := st.calls ++
              [{ id := gen (baseId + st.calls.length), name := nmInp.1, input := nmInp.2 }]
            matched := st.matched ++ [jsonCandidate] }
        | none => { st with depth := d, startIdx := none }
      else { st with depth := d }
    | none => { st with depth := d }
  else st

/-- JavaScript `String.prototype.replace` with a string pattern: replace the
first occurrence of `pat` (here always with the empty string).  An empty
pattern never occurs in this code (matched blocks are braced). -/
def replaceFirst (s pat : List Char) : List Char :=
  if pat = [] then s
  else
    match s with
    | [] => []
    | c :: rest =>
      if pat.isPrefixOf (c :: rest) then (c :: rest).drop pat.length
      else c :: replaceFirst rest pat

/-- `parseToolCalls(text, toolNames, genId)`: empty allow-list
short-circuits with the untouched text; otherwise scan for balanced
top-level brace blocks, match each candidate, remove the first occurrence
of every matched block from the text and trim the result. -/
def parseToolCalls (text : List Char) (toolNames : List String)
    (gen : Nat → String) (baseId : Nat)
    (jp : String → Option JsValue) (jstr : JsValue → String) : ToolParseResult :=
  if toolNames.isEmpty then { toolCalls := [], cleanText := text }
  else
    let fin := text.enum.foldl (scanStep jp jstr toolNames gen baseId text) ScanSt.init
    let clean := fin.matched.foldl replaceFirst text
    { toolCalls := fin.calls, cleanText := jsTrim clean }

/-! Spec-side view of the extraction, following the claim's words: the
candidates are the balanced top-level brace blocks located by the
string-aware scan, and the emitted calls are exactly the matching
candidates in scan order, the k-th match carrying the k-th freshly
generated id. -/

/-- Scan state for locating candidates only (no parsing). -/
structure CandSt where
  depth : Int
  inString : Bool
  escape : Bool
  startIdx : Option Nat
  cands : List (List Char)

def CandSt.init : CandSt :=
  { depth := 0, inString := false, escape := false, startIdx := none, cands := [] }

/-- Candidate-locating counterpart of `scanStep`: record every substring at
which the brace depth returns to zero after a top-level `{`. -/
def candStep (text : List Char) (st : CandSt) (ic : Nat × Char) : CandSt :=
  let i := ic.1
  let ch := ic.2
  if st.escape then { st with escape := false }
  else if ch = '\\' then { st with escape := true }
  else if ch = '"' then { st with inString := !st.inString }
  else if st.inString then st
  else if ch = '{' then
    let st := if st.depth = 0 then { st with startIdx := some i } else st
    { st with depth := st.depth + 1 }
  else if ch = '}' then
    let d0 := st.depth - 1
    let d := if d0 < 0 then 0 else d0
    match st.startIdx with
    | some s =>
      if d = 0 then
        { st with
          depth := d
          startIdx := none
          cands := st.cands ++ [(text.drop s).take (i + 1 - s)] }
      else { st with depth := d }
    | none => { st with depth := d }
  else st

/-- The balanced top-level JSON candidates located in `text`, in scan
order. -/
def scanCandidates (text : List Char) : List (List Char) :=
  (text.enum.foldl (candStep text) CandSt.init).cands

/-- Assign the freshly generated ids `gen baseId, gen (baseId+1), ...` to a
list of (canonical name, serialized arguments) pairs, in order: the k-th
pair receives the id `gen (baseId + k)`. -/
def mkIds (gen : Nat → String) (baseId : Nat) :
    List (String × String) → List ParsedToolCall
  | [] => []
  | x :: rest => { id := gen baseId, name := x.1, input := x.2 } :: mkIds gen (baseId + 1) rest

/-! ### Stream event coordinator (`DifyChatLanguageModel.doStream`,
src/dify-chat-settings.ts)

The TransformStream `transform` callback is embedded as a step function on
an explicit session state.  The opportunistic `conversationId` /
`messageId` / `taskId` bookkeeping only decorates emitted parts with
`providerMetadata` and never affects which parts are emitted or their
order, so it is omitted here, as are the constant part ids `"0"` / `"r0"`
and the error/log message texts. -/

/-- `finishReason` values produced by `doStream`. -/
inductive FinishReason where
  | stop
  | toolCalls
deriving DecidableEq, Repr

/-- Normalized usage record carried by the finish part. -/
structure Usage where
  inputTokens : Nat
  outputTokens : Nat
  totalTokens : Nat
deriving DecidableEq, Repr

/-- The `LanguageModelV2StreamPart`s this transform enqueues. -/
inductive StreamPart where
  | textStart
  | textDelta (delta : List Char)
  | textEnd
  | reasoningStart
  | reasoningDelta (delta : List Char)
  | reasoningEnd
  | toolInputStart (id toolName : String)
  | toolInputDelta (id : String) (delta : String)
  | toolInputEnd (id : String)
  | toolCallPart (toolCallId toolName : String) (input : String)
  | finish (reason : FinishReason) (usage : Usage)
  | errorPart
  | responseMetadata (id : String)
deriving DecidableEq, Repr

/-- Optional usage fields of a `message_end` event
(`metadata?.usage` with each field defaulted by `?? 0`; an absent
`metadata`/`usage` object is the all-`none` record). -/
structure MessageEndUsage where
  prompt_tokens : Option Nat
  completion_tokens : Option Nat
  total_tokens : Option Nat
deriving DecidableEq, Repr

/-- A decoded Dify stream event, as dispatched by the `switch` in the
transform callback.  `message`/`agent_message` carry the `answer` fragment
and an optional external message id; `workflow_finished` carries
`data.total_tokens` (optional); `message_replace` carries the full
replacement answer.  Events whose case bodies are empty, and event kinds
with no `switch` case at all, are collapsed into payload-free
constructors. -/
inductive DifyEvent where
  | message (answer : List Char) (msgId : Option String)
  | agentMessage (answer : List Char) (msgId : Option String)
  | workflowFinished (total_tokens : Option Nat)
  | messageEnd (usage : MessageEndUsage)
  | messageReplace (answer : List Char)
  | agentThought
  | messageFile
  | ping
  | errorEvent
  | otherEvent
deriving DecidableEq, Repr

/-- One element of the upstream `ParseResult` stream: a decoded event or a
typed decode failure (`chunk.success === false`). -/
inductive ParseChunk where
  | value (e : DifyEvent)
  | parseFailure
deriving DecidableEq, Repr

/-- Coordinator session state: the two block flags, the owned lexer, and
the `generateId` counter. -/
structure CoordState where
  isActiveText : Bool
  isActiveReasoning : Bool
  parser : ThinkTagParser
  nextId : Nat
deriving DecidableEq, Repr

def CoordState.init : CoordState :=
  { isActiveText := false, isActiveReasoning := false,
    parser := ThinkTagParser.init, nextId := 0 }

/-- The captured `emitSegments` helper: apply the block-lifecycle rule to
each segment, returning the updated `(isActiveText, isActiveReasoning)`
flags and the enqueued parts. -/
def emitSegments : Bool → Bool → List ThinkSegment → Bool × Bool × List StreamPart
  | t, r, [] => (t, r, [])
  | t, r, seg :: rest =>
    match seg.kind with
    | .reasoning =>
      let ps := (if t then [StreamPart.textEnd] else []) ++
        (if r then [] else [StreamPart.reasoningStart]) ++
        [StreamPart.reasoningDelta seg.content]
      let rec' := emitSegments false true rest
      (rec'.1, rec'.2.1, ps ++ rec'.2.2)
    | .text =>
      if seg.content.isEmpty then emitSegments t r rest
      else
        let ps := (if r then [StreamPart.reasoningEnd] else []) ++
          (if t then [] else [StreamPart.textStart]) ++
          [StreamPart.textDelta seg.content]
        let rec' := emitSegments true false rest
        (rec'.1, rec'.2.1, ps ++ rec'.2.2)

/-- The `tool-input-start` / `tool-input-delta` / `tool-input-end` /
`tool-call` quadruple enqueued for one extracted call. -/
def toolCallParts (tc : ParsedToolCall) : List StreamPart :=
  [StreamPart.toolInputStart tc.id tc.name,
   StreamPart.toolInputDelta tc.id tc.input,
   StreamPart.toolInputEnd tc.id,
   StreamPart.toolCallPart tc.id tc.name tc.input]

/-- The shared `workflow_finished` / `message_end` case body, after the
usage numbers have been reconciled: extract tool calls from the accumulated
de-tagged text, flush the lexer, close any open block (emitting the
degenerate empty plain-text pair when no text block is open and no tool
call was found), emit one quadruple per call and exactly one finish part. -/
def finalize (toolNames : List String) (gen : Nat → String)
    (jp : String → Option JsValue) (jstr : JsValue → String)
    (s : CoordState) (u : Usage) : CoordState × List StreamPart :=
  let textWithoutThink := s.parser.getTextWithoutThink
  let res := parseToolCalls textWithoutThink toolNames gen s.nextId jp jstr
  let hasToolCalls := !res.toolCalls.isEmpty
  let fl := s.parser.flush
  let em := emitSegments s.isActiveText s.isActiveReasoning fl.2
  let ps2 := if em.2.1 then [StreamPart.reasoningEnd] else []
  let ps3 :=
    if em.1 then [StreamPart.textEnd]
    else if !hasToolCalls then [StreamPart.textStart, StreamPart.textEnd]
    else []
  let ps4 := (res.toolCalls.map toolCallParts).flatten
  let ps5 := [StreamPart.finish (if hasToolCalls then .toolCalls else .stop) u]
  ({ isActiveText := false, isActiveReasoning := false, parser := fl.1,
     nextId := s.nextId + res.toolCalls.length },
   em.2.2 ++ ps2 ++ ps3 ++ ps4 ++ ps5)

/-- The `transform` callback: process one upstream chunk, returning the
updated session state and the enqueued parts in order. -/
def transform (toolNames : List String) (gen : Nat → String)
    (jp : String → Option JsValue) (jstr : JsValue → String)
    (s : CoordState) (c : ParseChunk) : CoordState × List StreamPart :=
  match c with
  | .parseFailure => (s, [StreamPart.errorPart])
  | .value e =>
    match e with
    | .workflowFinished tt =>
      finalize toolNames gen jp jstr s ⟨0, tt.getD 0, tt.getD 0⟩
    | .messageEnd u =>
      finalize toolNames gen jp jstr s
        ⟨u.prompt_tokens.getD 0, u.completion_tokens.getD 0, u.total_tokens.getD 0⟩
    | .message ans mid =>
      if ans.isEmpty then (s, [])
      else
        let fd := s.parser.feed ans
        let em := emitSegments s.isActiveText s.isActiveReasoning fd.2
        let meta := match mid with
          | some i => [StreamPart.responseMetadata i]
          | none => []
        ({ s with parser := fd.1, isActiveText := em.1, isActiveReasoning := em.2.1 },
         em.2.2 ++ meta)
    | .agentMessage ans mid =>
      if ans.isEmpty then (s, [])
      else
        let fd := s.parser.feed ans
        let em := emitSegments s.isActiveText s.isActiveReasoning fd.2
        let meta := match mid with
          | some i => [StreamPart.responseMetadata i]
          | none => []
        ({ s with parser := fd.1, isActiveText := em.1, isActiveReasoning := em.2.1 },
         em.2.2 ++ meta)
    | .messageReplace ans =>
      if ans.isEmpty then (s, [])
      else
        let parser' := s.parser.reset ans
        let ps := (if s.isActiveText then [StreamPart.textEnd] else []) ++
          [StreamPart.textStart, StreamPart.textDelta ans]
        ({ s with parser := parser', isActiveText := true }, ps)
    | .agentThought => (s, [])
    | .messageFile => (s, [])
    | .ping => (s, [])
    | .errorEvent => (s, [StreamPart.errorPart])
    | .otherEvent => (s, [])

/-- Run one coordinator session over a whole decoded chunk sequence,
concatenating the emitted parts. -/
def runCoord (toolNames : List String) (gen : Nat → String)
    (jp : String → Option JsValue) (jstr : JsValue → String) :
    CoordState → List ParseChunk → CoordState × List StreamPart
  | s, [] => (s, [])
  | s, c :: rest =>
    let r₁ := transform toolNames gen jp jstr s c
    let r₂ := runCoord toolNames gen jp jstr r₁.1 rest
    (r₂.1, r₁.2 ++ r₂.2)

/-! ### Observers on the emitted part stream

These definitions express the claims' vocabulary (finish events, block
lifecycle, the degenerate empty pair) as computable predicates on the
output part list. -/

def isFinish : StreamPart → Bool
  | .finish _ _ => true
  | _ => false

/-- The finish parts of an output sequence. -/
def finishParts (l : List StreamPart) : List StreamPart := l.filter isFinish

/-- The usage payloads of the finish parts of an output sequence. -/
def finishUsages (l : List StreamPart) : List Usage :=
  l.filterMap fun p => match p with
    | .finish _ u => some u
    | _ => none

/-- A terminal chunk: a decoded `workflow_finished` or `message_end`. -/
def isTerminalChunk : ParseChunk → Bool
  | .value (.workflowFinished _) => true
  | .value (.messageEnd _) => true
  | _ => false

/-- Parts emitted on the two content-block channels. -/
def isContentPart : StreamPart → Bool
  | .textStart => true
  | .textEnd => true
  | .textDelta _ => true
  | .reasoningStart => true
  | .reasoningEnd => true
  | .reasoningDelta _ => true
  | _ => false

/-- Parts of a tool-call quadruple. -/
def isToolPart : StreamPart → Bool
  | .toolInputStart _ _ => true
  | .toolInputDelta _ _ => true
  | .toolInputEnd _ => true
  | .toolCallPart _ _ _ => true
  | _ => false

/-- Track the two block-open flags along an output sequence, failing
(`none`) the moment a block-open is emitted on one channel while the other
channel's block is open: the mutual-exclusion reading of the claimed
invariant. -/
def mutexStep : Bool × Bool → StreamPart → Option (Bool × Bool)
  | f, .textStart => if f.2 then none else some (true, f.2)
  | f, .textEnd => some (false, f.2)
  | f, .reasoningStart => if f.1 then none else some (f.1, true)
  | f, .reasoningEnd => some (f.1, false)
  | f, _ => some f

def mutexScan : Bool × Bool → List StreamPart → Option (Bool × Bool)
  | f, [] => some f
  | f, p :: rest =>
    match mutexStep f p with
    | none => none
    | some f' => mutexScan f' rest

/-- Whether an output sequence contains a block-open immediately followed
by a block-close on the plain-text channel: the degenerate empty pair (the
coordinator never emits `text-start` directly followed by `text-end` on any
other path, since a fresh block-open is always followed by a delta). -/
def hasEmptyTextPair : List StreamPart → Bool
  | .textStart :: .textEnd :: _ => true
  | _ :: rest => hasEmptyTextPair rest
  | [] => false

/-- `true` when no `message_replace` chunk with a non-empty answer is
delivered at a moment where the reasoning block is open. -/
def replaceSafe (toolNames : List String) (gen : Nat → String)
    (jp : String → Option JsValue) (jstr : JsValue → String) :
    CoordState → List ParseChunk → Bool
  | _, [] => true
  | s, c :: rest =>
    (match c with
     | .value (.messageReplace ans) => ans.isEmpty || !s.isActiveReasoning
     | _ => true) &&
    replaceSafe toolNames gen jp jstr (transform toolNames gen jp jstr s c).1 rest

/-- The text-block flag right after the terminal flush of the lexer has
been emitted (the value of `isActiveText` tested by the degenerate-pair
branch). -/
def textActiveAfterFlush (s : CoordState) : Bool :=
  (emitSegments s.isActiveText s.isActiveReasoning (s.parser.flush).2).1

/-! ### Structural lemmas about the emitted parts -/

theorem mem_ite_list {α : Type} {p : α} {c : Prop} [Decidable c] {a b : List α}
    (h : p ∈ (if c then a else b)) : p ∈ a ∨ p ∈ b := by
  split at h
  · exact Or.inl h
  · exact Or.inr h

theorem emitSegments_content (segs : List ThinkSegment) :
    ∀ t r : Bool, ∀ p ∈ (emitSegments t r segs).2.2, isContentPart p = true := by
  induction segs with
  | nil => intro t r p hp; simp [emitSegments] at hp
  | cons seg rest ih =>
    intro t r p hp
    rcases seg with ⟨k, content⟩
    cases k with
    | reasoning =>
      simp only [emitSegments, List.append_assoc, List.mem_append] at hp
      rcases hp with hp | hp | hp | hp
      · rcases mem_ite_list hp with h | h <;> simp_all [isContentPart]
      · rcases mem_ite_list hp with h | h <;> simp_all [isContentPart]
      · simp only [List.mem_singleton] at hp; subst hp; simp [isContentPart]
      · exact ih false true p hp
    | text =>
      by_cases hc : content.isEmpty
      · exact ih t r p (by simpa [emitSegments, hc] using hp)
      · simp only [emitSegments, hc, List.append_assoc, List.mem_append,
          Bool.false_eq_true, if_false] at hp
        rcases hp with hp | hp | hp | hp
        · rcases mem_ite_list hp with h | h <;> simp_all [isContentPart]
        · rcases mem_ite_list hp with h | h <;> simp_all [isContentPart]
        · simp only [List.mem_singleton] at hp; subst hp; simp [isContentPart]
        · exact ih true false p hp

theorem toolParts_tool (l : List ParsedToolCall) :
    ∀ p ∈ (l.map toolCallParts).flatten, isToolPart p = true := by
  induction l with
  | nil => intro p hp; simp at hp
  | cons tc rest ih =>
    intro p hp
    simp only [List.map_cons, List.flatten_cons, List.mem_append] at hp
    rcases hp with hp | hp
    · simp only [toolCallParts, List.mem_cons] at hp
      rcases hp with h | h | h | h | h
      · subst h; simp [isToolPart]
      · subst h; simp [isToolPart]
      · subst h; simp [isToolPart]
      · subst h; simp [isToolPart]
      · simp at h
    · exact ih p hp

theorem content_not_finish {p : StreamPart} (h : isContentPart p = true) :
    isFinish p = false := by
  cases p <;> simp_all [isContentPart, isFinish]

theorem tool_not_finish {p : StreamPart} (h : isToolPart p = true) :
    isFinish p = false := by
  cases p <;> simp_all [isToolPart, isFinish]

theorem finishParts_emitSegments (t r : Bool) (segs : List ThinkSegment) :
    finishParts (emitSegments t r segs).2.2 = [] :=
  List.filter_eq_nil_iff.mpr fun p hp => by
    simp [content_not_finish (emitSegments_content segs t r p hp)]

theorem finishParts_toolParts (l : List ParsedToolCall) :
    finishParts (l.map toolCallParts).flatten = [] :=
  List.filter_eq_nil_iff.mpr fun p hp => by
    simp [tool_not_finish (toolParts_tool l p hp)]

theorem finishUsages_emitSegments (t r : Bool) (segs : List ThinkSegment) :
    finishUsages (emitSegments t r segs).2.2 = [] :=
  List.filterMap_eq_nil_iff.mpr fun p hp => by
    have h := content_not_finish (emitSegments_content segs t r p hp)
    cases p <;> simp_all [isFinish]

theorem finishUsages_toolParts (l : List ParsedToolCall) :
    finishUsages (l.map toolCallParts).flatten = [] :=
  List.filterMap_eq_nil_iff.mpr fun p hp => by
    have h := tool_not_finish (toolParts_tool l p hp)
    cases p <;> simp_all [isFinish]

theorem finishParts_ite_rEnd (b : Bool) :
    finishParts (if b then [StreamPart.reasoningEnd] else []) = [] := by
  cases b <;> simp [finishParts, isFinish]

theorem finishParts_close_or_pair (b1 b2 : Bool) :
    finishParts (if b1 then [StreamPart.textEnd]
      else if b2 then [StreamPart.textStart, StreamPart.textEnd] else []) = [] := by
  cases b1 <;> cases b2 <;> simp [finishParts, isFinish]

theorem finish_only_filter (a b c : List StreamPart) (calls : List ParsedToolCall)
    (rsn : FinishReason) (u : Usage)
    (ha : finishParts a = []) (hb : finishParts b = []) (hc : finishParts c = []) :
    finishParts (a ++ b ++ c ++ (calls.map toolCallParts).flatten ++
      [StreamPart.finish rsn u]) = [StreamPart.finish rsn u] := by
  have hd := finishParts_toolParts calls
  simp only [finishParts, List.filter_append] at ha hb hc hd ⊢
  rw [ha, hb, hc, hd]
  simp [isFinish]

theorem finishUsages_ite_rEnd (b : Bool) :
    finishUsages (if b then [StreamPart.reasoningEnd] else []) = [] := by
  cases b <;> simp [finishUsages]

theorem finishUsages_close_or_pair (b1 b2 : Bool) :
    finishUsages (if b1 then [StreamPart.textEnd]
      else if b2 then [StreamPart.textStart, StreamPart.textEnd] else []) = [] := by
  cases b1 <;> cases b2 <;> simp [finishUsages]

theorem finish_only_filterMap (a b c : List StreamPart) (calls : List ParsedToolCall)
    (rsn : FinishReason) (u : Usage)
    (ha : finishUsages a = []) (hb : finishUsages b = []) (hc : finishUsages c = []) :
    finishUsages (a ++ b ++ c ++ (calls.map toolCallParts).flatten ++
      [StreamPart.finish rsn u]) = [u] := by
  have hd := finishUsages_toolParts calls
  simp only [finishUsages, List.filterMap_append] at ha hb hc hd ⊢
  rw [ha, hb, hc, hd]
  simp

/-- The finish parts of one finalization: exactly one, with reason
`tool-calls` precisely when the extraction found a call. -/
theorem finalize_finishParts (toolNames : List String) (gen : Nat → String)
    (jp : String → Option JsValue) (jstr : JsValue → String)
    (s : CoordState) (u : Usage) :
    finishParts (finalize toolNames gen jp jstr s u).2
      = [StreamPart.finish
          (if (parseToolCalls s.parser.getTextWithoutThink toolNames gen s.nextId
                jp jstr).toolCalls.isEmpty
           then FinishReason.stop else FinishReason.toolCalls) u] := by
  simp only [finalize]
  rw [finish_only_filter _ _ _ _ _ _
    (finishParts_emitSegments _ _ _) (finishParts_ite_rEnd _) (finishParts_close_or_pair _ _)]
  cases h : (parseToolCalls s.parser.getTextWithoutThink toolNames gen s.nextId
      jp jstr).toolCalls.isEmpty <;> simp

theorem finalize_finishUsages (toolNames : List String) (gen : Nat → String)
    (jp : String → Option JsValue) (jstr : JsValue → String)
    (s : CoordState) (u : Usage) :
    finishUsages (finalize toolNames gen jp jstr s u).2 = [u] := by
  simp only [finalize]
  rw [finish_only_filterMap _ _ _ _ _ _
    (finishUsages_emitSegments _ _ _) (finishUsages_ite_rEnd _) (finishUsages_close_or_pair _ _)]

/-! ### Lexer composition lemmas -/

theorem feedCore_append (a b : List Char) (c : LexCore) :
    feedCore c (a ++ b)
      = ((feedCore (feedCore c a).1 b).1,
         (feedCore c a).2 ++ (feedCore (feedCore c a).1 b).2) := by
  induction a generalizing c with
  | nil => simp [feedCore]
  | cons ch rest ih => simp [feedCore, ih, List.append_assoc]

theorem mergePush_merge (s t : ThinkSegment) (x : List ThinkSegment)
    (h : s.kind = t.kind) :
    mergePush ⟨s.kind, s.content ++ t.content⟩ x = mergePush s (mergePush t x) := by
  cases x with
  | nil => simp [mergePush, h]
  | cons u rest =>
    by_cases hu : t.kind = u.kind
    · simp [mergePush, h, hu, List.append_assoc]
    · have hsu : ¬ s.kind = u.kind := h ▸ hu
      simp [mergePush, h, hu, hsu]

theorem mergePush_foldr (s : ThinkSegment) (l : List ThinkSegment)
    (m : List ThinkSegment) :
    (mergePush s l).foldr mergePush m = mergePush s (l.foldr mergePush m) := by
  cases l with
  | nil => rfl
  | cons t rest =>
    by_cases h : s.kind = t.kind
    · rw [show mergePush s (t :: rest) = ⟨s.kind, s.content ++ t.content⟩ :: rest from by
        simp [mergePush, h]]
      rw [List.foldr_cons]
      exact mergePush_merge s t _ h
    · rw [show mergePush s (t :: rest) = s :: t :: rest from by simp [mergePush, h]]
      rfl

theorem mergeSegs_foldr (a : List ThinkSegment) (m : List ThinkSegment) :
    (mergeSegs a).foldr mergePush m = a.foldr mergePush m := by
  induction a with
  | nil => simp [mergeSegs]
  | cons s rest ih =>
    simp only [mergeSegs, List.foldr_cons] at ih ⊢
    rw [mergePush_foldr, ih]

theorem mergeSegs_merge_append (a b : List ThinkSegment) :
    mergeSegs (mergeSegs a ++ mergeSegs b) = mergeSegs (a ++ b) := by
  have h1 : mergeSegs (mergeSegs a ++ mergeSegs b)
      = (mergeSegs a).foldr mergePush (mergeSegs (mergeSegs b)) := by
    simp [mergeSegs, List.foldr_append]
  have h2 : mergeSegs (mergeSegs b) = mergeSegs b := mergeSegs_foldr b []
  have h3 : mergeSegs (a ++ b) = a.foldr mergePush (mergeSegs b) := by
    simp [mergeSegs, List.foldr_append]
  rw [h1, h2, h3]
  exact mergeSegs_foldr a (mergeSegs b)

theorem textContent_append (a b : List ThinkSegment) :
    textContent (a ++ b) = textContent a ++ textContent b := by
  simp [textContent, List.filterMap_append]

theorem textContent_mergePush (s : ThinkSegment) (l : List ThinkSegment) :
    textContent (mergePush s l) = textContent (s :: l) := by
  cases l with
  | nil => rfl
  | cons t rest =>
    by_cases h : s.kind = t.kind
    · cases hk : s.kind <;>
        simp [mergePush, textContent, h, hk, h ▸ hk, List.append_assoc]
    · simp [mergePush, h]

theorem textContent_mergeSegs (l : List ThinkSegment) :
    textContent (mergeSegs l) = textContent l := by
  induction l with
  | nil => rfl
  | cons s rest ih =>
    have h1 : mergeSegs (s :: rest) = mergePush s (mergeSegs rest) := rfl
    rw [h1, textContent_mergePush]
    have h2 : textContent (s :: mergeSegs rest)
        = textContent [s] ++ textContent (mergeSegs rest) :=
      textContent_append [s] (mergeSegs rest)
    rw [h2, ih]
    exact (textContent_append [s] rest).symm

/-! ### Claim C4 -/

/-- Claim C4 (code bug, behavior at the failing input): after feeding
`"old"` into a fresh Lexer, `reset("new")` followed by reading the
accumulated plain text yields `"oldnew"`, whereas a fresh Lexer fed
`"new"` yields `"new"` — `reset` does not discard the accumulated plain
text (`textAccumulated`), contradicting the claimed
reset-equals-fresh-feed property. -/
theorem claim_C4 :
    ((((ThinkTagParser.init.feed "old".data).1.reset "new".data).getTextWithoutThink
        = "oldnew".data) ∧
      ((ThinkTagParser.init.feed "new".data).1.getTextWithoutThink = "new".data)) ∧
    "oldnew".data ≠ "new".data := by
  decide

/-! ### Claim C5 -/

/-- Claim C5, counterexample: feeding `<think>"a` puts the Lexer in the
`reasoning` state and inside a quoted string, yet the quote and the
character `a` are emitted as a plain-`text` segment, not as `reasoning`
content as the claim states. -/
theorem claim_C5_counterexample :
    ((ThinkTagParser.init.feed ("<think>\"a".data)).2
        = [⟨SegKind.text, "\"a".data⟩]) ∧
    ((ThinkTagParser.init.feed ("<think>\"a".data)).1.core.state = LexState.reasoning) ∧
    ((ThinkTagParser.init.feed ("<think>\"a".data)).1.core.inString = true) := by
  decide

/-- Claim C5 (amended): while the Lexer is inside a quoted string (and past
the leading-whitespace skip), every character is routed verbatim to the
output as a plain-`text` segment — regardless of the surrounding lexer
state — and tag scanning is suspended: the primary state, the
partial-match buffer and the closed-once flag are left untouched. -/
theorem claim_C5 (c : LexCore) (ch : Char)
    (hs : c.inString = true) (hh : c.hasStarted = true) :
    ((feedChar c ch).2 = [⟨SegKind.text, [ch]⟩]) ∧
    ((feedChar c ch).1.state = c.state) ∧
    ((feedChar c ch).1.buffer = c.buffer) ∧
    ((feedChar c ch).1.closed = c.closed) := by
  unfold feedChar
  rw [hh, hs]
  by_cases he : c.escape = true
  · simp [he]
  · simp only [Bool.not_eq_true] at he
    by_cases h1 : ch = '\\'
    · simp [he, h1]
    · by_cases h2 : ch = '"' <;> simp [he, h1, h2]

/-- Claim C5, witness: the amended theorem applied in the reasoning state. -/
theorem claim_C5_witness :
    ((feedChar ⟨LexState.reasoning, [], true, false, true, false⟩ 'a').2
        = [⟨SegKind.text, ['a']⟩]) ∧
    ((feedChar ⟨LexState.reasoning, [], true, false, true, false⟩ 'a').1.state
        = LexState.reasoning) ∧
    ((feedChar ⟨LexState.reasoning, [], true, false, true, false⟩ 'a').1.buffer = []) ∧
    ((feedChar ⟨LexState.reasoning, [], true, false, true, false⟩ 'a').1.closed = false) :=
  claim_C5 ⟨LexState.reasoning, [], true, false, true, false⟩ 'a' rfl rfl

/-! ### Claim C6 -/

/-- Claim C6, counterexample: with an empty allow-list the extractor
returns the original text unchanged, NOT trimmed: on input `" a "` the
returned `cleanText` is `" a "`, while the trimmed original is `"a"`. -/
theorem claim_C6_counterexample :
    ((parseToolCalls " a ".data [] (fun _ => "") 0 (fun _ => none)
        (fun _ => "")).cleanText = " a ".data) ∧
    (jsTrim " a ".data = "a".data) ∧
    " a ".data ≠ "a".data := by
  decide

/-- Claim C6 (amended): for every input text and id generator, an empty
allow-list short-circuits the extractor: no call is returned and
`cleanText` is the original text unchanged (in particular it is not
trimmed). -/
theorem claim_C6 (text : List Char) (gen : Nat → String) (baseId : Nat)
    (jp : String → Option JsValue) (jstr : JsValue → String) :
    parseToolCalls text [] gen baseId jp jstr
      = { toolCalls := [], cleanText := text } := by
  simp [parseToolCalls]

/-! ### Claim C9 -/

/-- Claim C9, counterexample: the text `a<think>"` contains a single valid
opening tag; splitting it strictly inside the tag as `a<th` / `ink>"`
yields the two-call merged outputs `[text "a"]` and `[text "\""]`, whose
concatenation (two segments) differs from the one-call output
`[text "a\""]` (one merged segment): the quote after the tag is routed as
plain text, so the same-kind segments on the two sides of the split are
merged in the one-call run but not across the two calls. -/
theorem claim_C9_counterexample :
    (("a<th".data ++ "ink>\"".data) = "a<think>\"".data) ∧
    ((ThinkTagParser.init.feed "a<th".data).2 ++
        ((ThinkTagParser.init.feed "a<th".data).1.feed "ink>\"".data).2
      ≠ (ThinkTagParser.init.feed "a<think>\"".data).2) := by
  decide

/-- Claim C9 (amended): for every text and every split position — in
particular for a single valid tag split at any character boundary — the
two-call run agrees with the one-call run up to one further merge of
adjacent same-kind segments: merging the concatenation of the two calls'
merged outputs yields exactly the one-call output, and the final parser
states (including the carried partial-match buffer and the accumulated
plain text) are identical. -/
theorem claim_C9 (t : List Char) (i : Nat) :
    (mergeSegs ((ThinkTagParser.init.feed (t.take i)).2 ++
        ((ThinkTagParser.init.feed (t.take i)).1.feed (t.drop i)).2)
      = (ThinkTagParser.init.feed t).2) ∧
    (((ThinkTagParser.init.feed (t.take i)).1.feed (t.drop i)).1
      = (ThinkTagParser.init.feed t).1) := by
  have hsplit : t.take i ++ t.drop i = t := List.take_append_drop i t
  have hfc := feedCore_append (t.take i) (t.drop i) LexCore.init
  rw [hsplit] at hfc
  constructor
  · simp only [ThinkTagParser.feed, ThinkTagParser.init]
    rw [hfc]
    exact mergeSegs_merge_append _ _
  · simp only [ThinkTagParser.feed, ThinkTagParser.init]
    rw [hfc]
    simp [ThinkTagParser.mk.injEq, hsplit, textContent_mergeSegs, textContent_append]

/-! ### Claim C10 -/

theorem scanStep_depth_nonneg (jp : String → Option JsValue) (jstr : JsValue → String)
    (toolNames : List String) (gen : Nat → String) (baseId : Nat) (text : List Char)
    (st : ScanSt) (ic : Nat × Char) (h : 0 ≤ st.depth) :
    0 ≤ (scanStep jp jstr toolNames gen baseId text st ic).depth := by
  rcases ic with ⟨i, ch⟩
  unfold scanStep
  by_cases h1 : st.escape = true
  · rw [if_pos h1]; exact h
  rw [if_neg h1]
  by_cases h2 : ch = '\\'
  · rw [if_pos h2]; exact h
  rw [if_neg h2]
  by_cases h3 : ch = '"'
  · rw [if_pos h3]; exact h
  rw [if_neg h3]
  by_cases h4 : st.inString = true
  · rw [if_pos h4]; exact h
  rw [if_neg h4]
  by_cases h5 : ch = '{'
  · rw [if_pos h5]
    by_cases h7 : st.depth = 0
    · rw [if_pos h7]; dsimp only; omega
    · rw [if_neg h7]; dsimp only; omega
  rw [if_neg h5]
  by_cases h6 : ch = '}'
  · rw [if_pos h6]
    cases hsi : st.startIdx with
    | none => dsimp only; split <;> omega
    | some s =>
      dsimp only
      generalize hd : (if st.depth - 1 < 0 then (0 : Int) else st.depth - 1) = d
      have hd0 : 0 ≤ d := by rw [← hd]; split <;> omega
      by_cases hdz : d = 0
      · rw [if_pos hdz]
        cases candMatch jp jstr toolNames ((text.drop s).take (i + 1 - s)) <;>
          (dsimp only; omega)
      · rw [if_neg hdz]; dsimp only; omega
  · rw [if_neg h6]; exact h

theorem scanFold_depth_nonneg (jp : String → Option JsValue) (jstr : JsValue → String)
    (toolNames : List String) (gen : Nat → String) (baseId : Nat) (text : List Char)
    (l : List (Nat × Char)) :
    ∀ st : ScanSt, 0 ≤ st.depth →
      0 ≤ (l.foldl (scanStep jp jstr toolNames gen baseId text) st).depth := by
  induction l with
  | nil => intro st h; simpa using h
  | cons ic rest ih =>
    intro st h
    exact ih _ (scanStep_depth_nonneg jp jstr toolNames gen baseId text st ic h)

theorem scanStep_parse_failure_skip (jstr : JsValue → String)
    (toolNames : List String) (gen : Nat → String) (baseId : Nat) (text : List Char)
    (st : ScanSt) (ic : Nat × Char) :
    ((scanStep (fun _ => none) jstr toolNames gen baseId text st ic).calls = st.calls) ∧
    ((scanStep (fun _ => none) jstr toolNames gen baseId text st ic).matched = st.matched) := by
  have hcm : ∀ cand, candMatch (fun _ => none) jstr toolNames cand = none :=
    fun _ => rfl
  constructor
  · unfold scanStep
    simp only [hcm]
    repeat' split
    all_goals rfl
  · unfold scanStep
    simp only [hcm]
    repeat' split
    all_goals rfl

theorem scanFold_parse_failure_skip (jstr : JsValue → String)
    (toolNames : List String) (gen : Nat → String) (baseId : Nat) (text : List Char)
    (l : List (Nat × Char)) :
    ∀ st : ScanSt,
      ((l.foldl (scanStep (fun _ => none) jstr toolNames gen baseId text) st).calls
        = st.calls) ∧
      ((l.foldl (scanStep (fun _ => none) jstr toolNames gen baseId text) st).matched
        = st.matched) := by
  induction l with
  | nil => intro st; exact ⟨rfl, rfl⟩
  | cons ic rest ih =>
    intro st
    have h1 := scanStep_parse_failure_skip jstr toolNames gen baseId text st ic
    have h2 := ih (scanStep (fun _ => none) jstr toolNames gen baseId text st ic)
    exact ⟨h2.1.trans h1.1, h2.2.trans h1.2⟩

/-- Claim C10: the Tool-Call Extractor is total and never aborts.  First
conjunct: after any number of scan steps on any input, the brace-nesting
depth is never negative — an unmatched closing brace is clamped at zero.
Second conjunct: when every candidate fails JSON parsing (the parse
function models a `JSON.parse` that always throws), extraction over any
text with a non-empty allow-list still returns normally, with no calls and
the trimmed original text.  (Termination itself holds by construction:
`parseToolCalls` is a total function.) -/
theorem claim_C10 :
    (∀ (jp : String → Option JsValue) (jstr : JsValue → String)
        (toolNames : List String) (gen : Nat → String) (baseId : Nat)
        (text : List Char) (i : Nat),
      0 ≤ ((text.enum.take i).foldl
            (scanStep jp jstr toolNames gen baseId text) ScanSt.init).depth) ∧
    (∀ (text : List Char) (gen : Nat → String) (baseId : Nat)
        (n : String) (ns : List String) (jstr : JsValue → String),
      parseToolCalls text (n :: ns) gen baseId (fun _ => none) jstr
        = { toolCalls := [], cleanText := jsTrim text }) := by
  constructor
  · intro jp jstr toolNames gen baseId text i
    exact scanFold_depth_nonneg jp jstr toolNames gen baseId text _ ScanSt.init
      (by norm_num [ScanSt.init])
  · intro text gen baseId n ns jstr
    have h := scanFold_parse_failure_skip jstr (n :: ns) gen baseId text text.enum ScanSt.init
    simp only [parseToolCalls, List.isEmpty_cons, Bool.false_eq_true, if_false]
    rw [h.1, h.2]
    rfl

/-! ### Claim C2 -/

theorem countP_isFinish_emitSegments (t r : Bool) (segs : List ThinkSegment) :
    (emitSegments t r segs).2.2.countP isFinish = 0 :=
  List.countP_eq_zero.mpr fun p hp => by
    simp [content_not_finish (emitSegments_content segs t r p hp)]

theorem transform_countFinish (toolNames : List String) (gen : Nat → String)
    (jp : String → Option JsValue) (jstr : JsValue → String)
    (s : CoordState) (c : ParseChunk) :
    (transform toolNames gen jp jstr s c).2.countP isFinish
      = if isTerminalChunk c then 1 else 0 := by
  cases c with
  | parseFailure => simp [transform, isTerminalChunk, isFinish]
  | value e =>
    cases e with
    | workflowFinished tt =>
      show (finalize toolNames gen jp jstr s _).2.countP isFinish = _
      rw [List.countP_eq_length_filter,
        show List.filter isFinish (finalize toolNames gen jp jstr s
            ⟨0, tt.getD 0, tt.getD 0⟩).2
          = finishParts (finalize toolNames gen jp jstr s ⟨0, tt.getD 0, tt.getD 0⟩).2
          from rfl,
        finalize_finishParts]
      simp [isTerminalChunk]
    | messageEnd u =>
      show (finalize toolNames gen jp jstr s _).2.countP isFinish = _
      rw [List.countP_eq_length_filter,
        show List.filter isFinish (finalize toolNames gen jp jstr s
            ⟨u.prompt_tokens.getD 0, u.completion_tokens.getD 0, u.total_tokens.getD 0⟩).2
          = finishParts (finalize toolNames gen jp jstr s
              ⟨u.prompt_tokens.getD 0, u.completion_tokens.getD 0,
                u.total_tokens.getD 0⟩).2
          from rfl,
        finalize_finishParts]
      simp [isTerminalChunk]
    | message ans mid =>
      by_cases ha : ans.isEmpty
      · simp [transform, ha, isTerminalChunk]
      · cases mid <;>
          simp [transform, ha, isTerminalChunk, List.countP_append,
            countP_isFinish_emitSegments, isFinish, List.countP_cons]
    | agentMessage ans mid =>
      by_cases ha : ans.isEmpty
      · simp [transform, ha, isTerminalChunk]
      · cases mid <;>
          simp [transform, ha, isTerminalChunk, List.countP_append,
            countP_isFinish_emitSegments, isFinish, List.countP_cons]
    | messageReplace ans =>
      by_cases ha : ans.isEmpty
      · simp [transform, ha, isTerminalChunk]
      · cases hs : s.isActiveText <;>
          simp [transform, ha, hs, isTerminalChunk, List.countP_append,
            isFinish, List.countP_cons]
    | agentThought => simp [transform, isTerminalChunk]
    | messageFile => simp [transform, isTerminalChunk]
    | ping => simp [transform, isTerminalChunk]
    | errorEvent => simp [transform, isTerminalChunk, isFinish, List.countP_cons]
    | otherEvent => simp [transform, isTerminalChunk]

theorem runCoord_countFinish (toolNames : List String) (gen : Nat → String)
    (jp : String → Option JsValue) (jstr : JsValue → String)
    (evs : List ParseChunk) :
    ∀ s : CoordState,
      (runCoord toolNames gen jp jstr s evs).2.countP isFinish
        = evs.countP isTerminalChunk := by
  induction evs with
  | nil => intro s; simp [runCoord]
  | cons c rest ih =>
    intro s
    simp only [runCoord, List.countP_append, List.countP_cons,
      transform_countFinish, ih]
    by_cases h : isTerminalChunk c <;> (simp [h]; try omega)

/-- Claim C2, counterexample: a decoded input sequence delivering two
terminal events (`workflow_finished` followed by `message_end`, as a Dify
chatflow run does) produces TWO finish events in one session, refuting
"exactly one finish event per session, never more than one". -/
theorem claim_C2_counterexample :
    ((runCoord [] (fun _ => "") (fun _ => none) (fun _ => "") CoordState.init
        [ParseChunk.value (DifyEvent.workflowFinished (some 1)),
         ParseChunk.value (DifyEvent.messageEnd ⟨none, none, none⟩)]).2.countP
      isFinish) = 2 := by
  decide

/-- Claim C2 (amended): the output of a session contains exactly one finish
event per terminal input event (so exactly one when exactly one terminal
event arrives, and none before any terminal event arrives); each terminal
event's emitted parts contain exactly one finish, carrying finishReason
`tool-calls` if the extraction at that finalization found a call and `stop`
otherwise, together with the reconciled usage numbers. -/
theorem claim_C2 :
    (∀ (toolNames : List String) (gen : Nat → String) (jp : String → Option JsValue)
        (jstr : JsValue → String) (evs : List ParseChunk),
      (runCoord toolNames gen jp jstr CoordState.init evs).2.countP isFinish
        = evs.countP isTerminalChunk) ∧
    (∀ (toolNames : List String) (gen : Nat → String) (jp : String → Option JsValue)
        (jstr : JsValue → String) (s : CoordState) (tt : Option Nat),
      finishParts (transform toolNames gen jp jstr s
          (ParseChunk.value (DifyEvent.workflowFinished tt))).2
        = [StreamPart.finish
            (if (parseToolCalls s.parser.getTextWithoutThink toolNames gen s.nextId
                  jp jstr).toolCalls.isEmpty
             then FinishReason.stop else FinishReason.toolCalls)
            ⟨0, tt.getD 0, tt.getD 0⟩]) ∧
    (∀ (toolNames : List String) (gen : Nat → String) (jp : String → Option JsValue)
        (jstr : JsValue → String) (s : CoordState) (u : MessageEndUsage),
      finishParts (transform toolNames gen jp jstr s
          (ParseChunk.value (DifyEvent.messageEnd u))).2
        = [StreamPart.finish
            (if (parseToolCalls s.parser.getTextWithoutThink toolNames gen s.nextId
                  jp jstr).toolCalls.isEmpty
             then FinishReason.stop else FinishReason.toolCalls)
            ⟨u.prompt_tokens.getD 0, u.completion_tokens.getD 0,
              u.total_tokens.getD 0⟩]) := by
  refine ⟨?_, ?_, ?_⟩
  · intro toolNames gen jp jstr evs
    exact runCoord_countFinish toolNames gen jp jstr evs CoordState.init
  · intro toolNames gen jp jstr s tt
    exact finalize_finishParts toolNames gen jp jstr s _
  · intro toolNames gen jp jstr s u
    exact finalize_finishParts toolNames gen jp jstr s _

/-! ### Claim C1 -/

theorem mutexScan_append (a b : List StreamPart) (f : Bool × Bool) :
    mutexScan f (a ++ b) = (mutexScan f a).bind fun g => mutexScan g b := by
  induction a generalizing f with
  | nil => simp [mutexScan]
  | cons p rest ih =>
    simp only [List.cons_append, mutexScan]
    cases mutexStep f p with
    | none => rfl
    | some f' => exact ih f'

theorem emitSegments_mutex (segs : List ThinkSegment) :
    ∀ t r : Bool,
      mutexScan (t, r) (emitSegments t r segs).2.2
        = some ((emitSegments t r segs).1, (emitSegments t r segs).2.1) := by
  induction segs with
  | nil => intro t r; rfl
  | cons seg rest ih =>
    intro t r
    rcases seg with ⟨k, content⟩
    cases k with
    | reasoning =>
      cases t <;> cases r <;>
        simp [emitSegments, mutexScan, mutexStep, mutexScan_append, ih false true]
    | text =>
      by_cases hc : content.isEmpty
      · have h : emitSegments t r (⟨SegKind.text, content⟩ :: rest)
            = emitSegments t r rest := by simp [emitSegments, hc]
        rw [h]; exact ih t r
      · cases t <;> cases r <;>
          simp [emitSegments, hc, mutexScan, mutexStep, mutexScan_append, ih true false]

theorem mutexScan_toolParts (l : List ParsedToolCall) :
    ∀ f : Bool × Bool, mutexScan f ((l.map toolCallParts).flatten) = some f := by
  induction l with
  | nil => intro f; rfl
  | cons tc rest ih =>
    intro f
    simp [toolCallParts, mutexScan, mutexStep, ih f]

theorem finalize_mutex (toolNames : List String) (gen : Nat → String)
    (jp : String → Option JsValue) (jstr : JsValue → String)
    (s : CoordState) (u : Usage) :
    mutexScan (s.isActiveText, s.isActiveReasoning)
        (finalize toolNames gen jp jstr s u).2 = some (false, false) := by
  have hem := emitSegments_mutex (s.parser.flush).2 s.isActiveText s.isActiveReasoning
  simp only [finalize, mutexScan_append, hem, Option.bind_some]
  cases h1 : (emitSegments s.isActiveText s.isActiveReasoning (s.parser.flush).2).1 <;>
    cases h2 : (emitSegments s.isActiveText s.isActiveReasoning (s.parser.flush).2).2.1 <;>
      cases hE : (parseToolCalls s.parser.getTextWithoutThink toolNames gen s.nextId
          jp jstr).toolCalls.isEmpty <;>
        simp [mutexScan, mutexStep, mutexScan_toolParts]

theorem transform_mutex (toolNames : List String) (gen : Nat → String)
    (jp : String → Option JsValue) (jstr : JsValue → String)
    (s : CoordState) (c : ParseChunk)
    (hok : (match c with
            | ParseChunk.value (DifyEvent.messageReplace ans) =>
                ans.isEmpty || !s.isActiveReasoning
            | _ => true) = true) :
    mutexScan (s.isActiveText, s.isActiveReasoning)
        (transform toolNames gen jp jstr s c).2
      = some ((transform toolNames gen jp jstr s c).1.isActiveText,
              (transform toolNames gen jp jstr s c).1.isActiveReasoning) := by
  cases c with
  | parseFailure => simp [transform, mutexScan, mutexStep]
  | value e =>
    cases e with
    | workflowFinished tt => exact finalize_mutex toolNames gen jp jstr s _
    | messageEnd u => exact finalize_mutex toolNames gen jp jstr s _
    | message ans mid =>
      by_cases ha : ans.isEmpty
      · simp [transform, ha, mutexScan]
      · have hem := emitSegments_mutex (s.parser.feed ans).2 s.isActiveText s.isActiveReasoning
        cases mid <;>
          simp [transform, ha, mutexScan_append, hem, mutexScan, mutexStep]
    | agentMessage ans mid =>
      by_cases ha : ans.isEmpty
      · simp [transform, ha, mutexScan]
      · have hem := emitSegments_mutex (s.parser.feed ans).2 s.isActiveText s.isActiveReasoning
        cases mid <;>
          simp [transform, ha, mutexScan_append, hem, mutexScan, mutexStep]
    | messageReplace ans =>
      by_cases ha : ans.isEmpty
      · simp [transform, ha, mutexScan]
      · have hr : s.isActiveReasoning = false := by
          simp only [ha, Bool.false_or, Bool.not_eq_true'] at hok
          exact hok
        cases ht : s.isActiveText <;>
          simp [transform, ha, hr, ht, mutexScan, mutexStep]
    | agentThought => simp [transform, mutexScan]
    | messageFile => simp [transform, mutexScan]
    | ping => simp [transform, mutexScan]
    | errorEvent => simp [transform, mutexScan, mutexStep]
    | otherEvent => simp [transform, mutexScan]

theorem runCoord_mutex (toolNames : List String) (gen : Nat → String)
    (jp : String → Option JsValue) (jstr : JsValue → String)
    (evs : List ParseChunk) :
    ∀ s : CoordState, replaceSafe toolNames gen jp jstr s evs = true →
      mutexScan (s.isActiveText, s.isActiveReasoning)
          (runCoord toolNames gen jp jstr s evs).2
        = some ((runCoord toolNames gen jp jstr s evs).1.isActiveText,
                (runCoord toolNames gen jp jstr s evs).1.isActiveReasoning) := by
  induction evs with
  | nil => intro s h; rfl
  | cons c rest ih =>
    intro s h
    simp only [replaceSafe, Bool.and_eq_true] at h
    obtain ⟨h1, h2⟩ := h
    simp only [runCoord, mutexScan_append]
    rw [transform_mutex toolNames gen jp jstr s c h1]
    simp only [Option.some_bind]
    exact ih _ h2

/-- Claim C1, counterexample: a `message_replace` arriving while the
reasoning block is open emits `text-start` without first closing the
reasoning block — the mutual-exclusion scan rejects the output
(`mutexScan = none` means a block-open was emitted on one channel while
the other channel's block was open), and the final session state has both
blocks open at once, refuting the claimed invariant and the claim that a
full-replace closes whichever block is open. -/
theorem claim_C1_counterexample :
    ((mutexScan (false, false) (runCoord [] (fun _ => "") (fun _ => none)
        (fun _ => "") CoordState.init
        [ParseChunk.value (DifyEvent.message "<think>r".data none),
         ParseChunk.value (DifyEvent.messageReplace "x".data)]).2) = none) ∧
    ((runCoord [] (fun _ => "") (fun _ => none) (fun _ => "") CoordState.init
        [ParseChunk.value (DifyEvent.message "<think>r".data none),
         ParseChunk.value (DifyEvent.messageReplace "x".data)]).1.isActiveText
       = true) ∧
    ((runCoord [] (fun _ => "") (fun _ => none) (fun _ => "") CoordState.init
        [ParseChunk.value (DifyEvent.message "<think>r".data none),
         ParseChunk.value (DifyEvent.messageReplace "x".data)]).1.isActiveReasoning
       = true) := by
  decide

/-- Claim C1 (amended): for every decoded input event sequence in which no
`message_replace` event (with a non-empty answer) arrives while the
reasoning block is open, at most one of the plain-text and reasoning
blocks is open at any time in the emitted output stream: a block-open on
one channel is never emitted while the other channel's block is open
without that block having been closed first.  (A full-replace closes an
open plain-text block before opening a fresh one; it does NOT close an
open reasoning block, which is what the side condition excludes.) -/
theorem claim_C1 (toolNames : List String) (gen : Nat → String)
    (jp : String → Option JsValue) (jstr : JsValue → String)
    (evs : List ParseChunk)
    (h : replaceSafe toolNames gen jp jstr CoordState.init evs = true) :
    (mutexScan (false, false)
        (runCoord toolNames gen jp jstr CoordState.init evs).2).isSome = true := by
  rw [show ((false, false) : Bool × Bool)
      = (CoordState.init.isActiveText, CoordState.init.isActiveReasoning) from rfl,
    runCoord_mutex toolNames gen jp jstr evs CoordState.init h]
  rfl

/-- Claim C1, witness: the amended invariant on a concrete replace-free
session. -/
theorem claim_C1_witness :
    (replaceSafe [] (fun _ => "") (fun _ => none) (fun _ => "") CoordState.init
        [ParseChunk.value (DifyEvent.message "a<think>r".data none),
         ParseChunk.value (DifyEvent.workflowFinished (some 3))] = true) ∧
    ((mutexScan (false, false) (runCoord [] (fun _ => "") (fun _ => none)
        (fun _ => "") CoordState.init
        [ParseChunk.value (DifyEvent.message "a<think>r".data none),
         ParseChunk.value (DifyEvent.workflowFinished (some 3))]).2).isSome
      = true) :=
  ⟨by decide,
   claim_C1 [] (fun _ => "") (fun _ => none) (fun _ => "")
     [ParseChunk.value (DifyEvent.message "a<think>r".data none),
      ParseChunk.value (DifyEvent.workflowFinished (some 3))] (by decide)⟩

/-! ### Claim C8 -/

theorem mkIds_length (gen : Nat → String) (l : List (String × String)) :
    ∀ baseId, (mkIds gen baseId l).length = l.length := by
  induction l with
  | nil => intro b; rfl
  | cons x rest ih => intro b; simp [mkIds, ih]

theorem mkIds_append_single (gen : Nat → String) (l : List (String × String))
    (x : String × String) :
    ∀ baseId, mkIds gen baseId (l ++ [x])
      = mkIds gen baseId l
        ++ [{ id := gen (baseId + l.length), name := x.1, input := x.2 }] := by
  induction l with
  | nil => intro b; simp [mkIds]
  | cons y rest ih =>
    intro b
    simp only [List.cons_append, mkIds, List.length_cons, List.append_eq]
    rw [ih (b + 1), show b + 1 + rest.length = b + (rest.length + 1) from by omega]

theorem candMatch_nil (jp : String → Option JsValue) (jstr : JsValue → String)
    (cand : List Char) : candMatch jp jstr [] cand = none := by
  rcases hjp : jp (String.mk cand) with _ | parsed
  · simp [candMatch, hjp]
  · simp only [candMatch, hjp]
    split
    · simp [List.map_nil, List.findIdx?_nil]
    · rfl

theorem scan_cand_step (jp : String → Option JsValue) (jstr : JsValue → String)
    (toolNames : List String) (gen : Nat → String) (baseId : Nat) (text : List Char)
    (d : Int) (istr esc : Bool) (sidx : Option Nat)
    (calls : List ParsedToolCall) (matched cands : List (List Char)) (ic : Nat × Char)
    (hc : calls = mkIds gen baseId (cands.filterMap (candMatch jp jstr toolNames))) :
    ((scanStep jp jstr toolNames gen baseId text ⟨d, istr, esc, sidx, calls, matched⟩ ic).depth
        = (candStep text ⟨d, istr, esc, sidx, cands⟩ ic).depth) ∧
    ((scanStep jp jstr toolNames gen baseId text ⟨d, istr, esc, sidx, calls, matched⟩ ic).inString
        = (candStep text ⟨d, istr, esc, sidx, cands⟩ ic).inString) ∧
    ((scanStep jp jstr toolNames gen baseId text ⟨d, istr, esc, sidx, calls, matched⟩ ic).escape
        = (candStep text ⟨d, istr, esc, sidx, cands⟩ ic).escape) ∧
    ((scanStep jp jstr toolNames gen baseId text ⟨d, istr, esc, sidx, calls, matched⟩ ic).startIdx
        = (candStep text ⟨d, istr, esc, sidx, cands⟩ ic).startIdx) ∧
    ((scanStep jp jstr toolNames gen baseId text ⟨d, istr, esc, sidx, calls, matched⟩ ic).calls
        = mkIds gen baseId
            (((candStep text ⟨d, istr, esc, sidx, cands⟩ ic).cands).filterMap
              (candMatch jp jstr toolNames))) := by
  rcases ic with ⟨i, ch⟩
  unfold scanStep candStep
  by_cases h1 : esc = true
  · rw [if_pos h1, if_pos h1]; exact ⟨rfl, rfl, rfl, rfl, hc⟩
  rw [if_neg h1, if_neg h1]
  by_cases h2 : ch = '\\'
  · rw [if_pos h2, if_pos h2]; exact ⟨rfl, rfl, rfl, rfl, hc⟩
  rw [if_neg h2, if_neg h2]
  by_cases h3 : ch = '"'
  · rw [if_pos h3, if_pos h3]; exact ⟨rfl, rfl, rfl, rfl, hc⟩
  rw [if_neg h3, if_neg h3]
  by_cases h4 : istr = true
  · rw [if_pos h4, if_pos h4]; exact ⟨rfl, rfl, rfl, rfl, hc⟩
  rw [if_neg h4, if_neg h4]
  by_cases h5 : ch = '{'
  · rw [if_pos h5, if_pos h5]
    by_cases h7 : d = 0
    · rw [if_pos h7, if_pos h7]; exact ⟨rfl, rfl, rfl, rfl, hc⟩
    · rw [if_neg h7, if_neg h7]; exact ⟨rfl, rfl, rfl, rfl, hc⟩
  rw [if_neg h5, if_neg h5]
  by_cases h6 : ch = '}'
  · rw [if_pos h6, if_pos h6]
    cases sidx with
    | none => exact ⟨rfl, rfl, rfl, rfl, hc⟩
    | some s =>
      dsimp only
      by_cases hdz : (if d - 1 < 0 then (0 : Int) else d - 1) = 0
      · rw [if_pos hdz, if_pos hdz]
        cases hm : candMatch jp jstr toolNames ((text.drop s).take (i + 1 - s)) with
        | none =>
          refine ⟨rfl, rfl, rfl, rfl, ?_⟩
          simp only [List.filterMap_append, List.filterMap_cons, hm,
            List.filterMap_nil, List.append_nil]
          exact hc
        | some nmInp =>
          refine ⟨rfl, rfl, rfl, rfl, ?_⟩
          simp only [List.filterMap_append, List.filterMap_cons, hm,
            List.filterMap_nil]
          rw [mkIds_append_single]
          rw [hc, mkIds_length gen _ baseId]
      · rw [if_neg hdz, if_neg hdz]; exact ⟨rfl, rfl, rfl, rfl, hc⟩
  · rw [if_neg h6, if_neg h6]; exact ⟨rfl, rfl, rfl, rfl, hc⟩

theorem scan_cand_fold (jp : String → Option JsValue) (jstr : JsValue → String)
    (toolNames : List String) (gen : Nat → String) (baseId : Nat) (text : List Char)
    (l : List (Nat × Char)) :
    ∀ (d : Int) (istr esc : Bool) (sidx : Option Nat)
      (calls : List ParsedToolCall) (matched cands : List (List Char)),
      calls = mkIds gen baseId (cands.filterMap (candMatch jp jstr toolNames)) →
      (l.foldl (scanStep jp jstr toolNames gen baseId text)
          ⟨d, istr, esc, sidx, calls, matched⟩).calls
        = mkIds gen baseId
            (((l.foldl (candStep text) ⟨d, istr, esc, sidx, cands⟩).cands).filterMap
              (candMatch jp jstr toolNames)) := by
  induction l with
  | nil => intro d istr esc sidx calls matched cands hc; exact hc
  | cons ic rest ih =>
    intro d istr esc sidx calls matched cands hc
    obtain ⟨e1, e2, e3, e4, e5⟩ :=
      scan_cand_step jp jstr toolNames gen baseId text d istr esc sidx calls
        matched cands ic hc
    simp only [List.foldl_cons]
    rw [show scanStep jp jstr toolNames gen baseId text
          ⟨d, istr, esc, sidx, calls, matched⟩ ic
        = ⟨(scanStep jp jstr toolNames gen baseId text
              ⟨d, istr, esc, sidx, calls, matched⟩ ic).depth,
           (scanStep jp jstr toolNames gen baseId text
              ⟨d, istr, esc, sidx, calls, matched⟩ ic).inString,
           (scanStep jp jstr toolNames gen baseId text
              ⟨d, istr, esc, sidx, calls, matched⟩ ic).escape,
           (scanStep jp jstr toolNames gen baseId text
              ⟨d, istr, esc, sidx, calls, matched⟩ ic).startIdx,
           (scanStep jp jstr toolNames gen baseId text
              ⟨d, istr, esc, sidx, calls, matched⟩ ic).calls,
           (scanStep jp jstr toolNames gen baseId text
              ⟨d, istr, esc, sidx, calls, matched⟩ ic).matched⟩ from rfl,
      show candStep text ⟨d, istr, esc, sidx, cands⟩ ic
        = ⟨(candStep text ⟨d, istr, esc, sidx, cands⟩ ic).depth,
           (candStep text ⟨d, istr, esc, sidx, cands⟩ ic).inString,
           (candStep text ⟨d, istr, esc, sidx, cands⟩ ic).escape,
           (candStep text ⟨d, istr, esc, sidx, cands⟩ ic).startIdx,
           (candStep text ⟨d, istr, esc, sidx, cands⟩ ic).cands⟩ from rfl,
      e1, e2, e3, e4]
    exact ih _ _ _ _ _ _ _ e5

/-- Claim C8: for every input text, the calls returned by the Tool-Call
Extractor are exactly the balanced top-level JSON candidates located by the
string-aware scan that satisfy the matching rule — the candidate parses
(`jp` models `JSON.parse`, `none` standing for a thrown error, which is
silently skipped) to an object carrying both a `name` key and an
`arguments` key whose name matches an allow-list entry case-insensitively —
each emitted call carrying the allow-list's canonical-cased name, the next
freshly generated id (the k-th match receives `gen (baseId + k)`), and the
`arguments` value re-serialized by `jstr` (modeling the compact
`JSON.stringify`); non-matching and unparseable candidates contribute
nothing. -/
theorem claim_C8 (text : List Char) (toolNames : List String) (gen : Nat → String)
    (baseId : Nat) (jp : String → Option JsValue) (jstr : JsValue → String) :
    (parseToolCalls text toolNames gen baseId jp jstr).toolCalls
      = mkIds gen baseId
          ((scanCandidates text).filterMap (candMatch jp jstr toolNames)) := by
  cases toolNames with
  | nil =>
    have h : ∀ l : List (List Char),
        l.filterMap (candMatch jp jstr []) = [] := fun l =>
      List.filterMap_eq_nil_iff.mpr fun a _ => candMatch_nil jp jstr a
    simp [parseToolCalls, h, mkIds]
  | cons n ns =>
    have h := scan_cand_fold jp jstr (n :: ns) gen baseId text text.enum
      0 false false none [] [] [] rfl
    simpa [parseToolCalls, scanCandidates, ScanSt.init, CandSt.init] using h

/-! ### Claim C3 -/

theorem hasPair_cons_iff (x : StreamPart) (l : List StreamPart) :
    hasEmptyTextPair (x :: l) = true ↔
      (x = StreamPart.textStart ∧ l.head? = some StreamPart.textEnd) ∨
      hasEmptyTextPair l = true := by
  cases l with
  | nil => cases x <;> simp [hasEmptyTextPair]
  | cons y l' => cases x <;> cases y <;> simp [hasEmptyTextPair]

theorem hasPair_append_iff (a b : List StreamPart) :
    hasEmptyTextPair (a ++ b) = true ↔
      hasEmptyTextPair a = true ∨ hasEmptyTextPair b = true ∨
      (a.getLast? = some StreamPart.textStart ∧
       b.head? = some StreamPart.textEnd) := by
  induction a with
  | nil => simp [hasEmptyTextPair]
  | cons x a' ih =>
    rw [List.cons_append, hasPair_cons_iff, ih, hasPair_cons_iff]
    cases a' with
    | nil => simp [hasEmptyTextPair]; try tauto
    | cons y a'' =>
      simp only [List.cons_append, List.head?_cons, List.getLast?_cons_cons]
      tauto

theorem or_ne_textStart (o : Option StreamPart) (d : StreamPart)
    (ho : o ≠ some StreamPart.textStart) (hd : d ≠ StreamPart.textStart) :
    o.or (some d) ≠ some StreamPart.textStart := by
  cases o <;> simp_all

theorem emitSegments_no_pair (segs : List ThinkSegment) :
    ∀ t r : Bool,
      hasEmptyTextPair (emitSegments t r segs).2.2 ≠ true ∧
      (emitSegments t r segs).2.2.getLast? ≠ some StreamPart.textStart := by
  induction segs with
  | nil => intro t r; exact ⟨by simp [emitSegments, hasEmptyTextPair], by simp [emitSegments]⟩
  | cons seg rest ih =>
    intro t r
    rcases seg with ⟨k, content⟩
    cases k with
    | reasoning =>
      rcases ih false true with ⟨ih1, ih2⟩
      constructor
      · cases t <;> cases r <;>
          simp [emitSegments, hasPair_cons_iff, ih1]
      · cases t <;> cases r <;>
          · simp only [emitSegments, Bool.false_eq_true, if_true, if_false,
              List.nil_append, List.cons_append, List.getLast?_cons_cons]
            rw [show (StreamPart.reasoningDelta content
                  :: (emitSegments false true rest).2.2)
                = [StreamPart.reasoningDelta content]
                  ++ (emitSegments false true rest).2.2 from rfl,
              List.getLast?_append]
            exact or_ne_textStart _ _ ih2 (by simp)
    | text =>
      by_cases hc : content.isEmpty
      · have h : emitSegments t r (⟨SegKind.text, content⟩ :: rest)
            = emitSegments t r rest := by
          simp [emitSegments, hc]
        rw [h]; exact ih t r
      · rcases ih true false with ⟨ih1, ih2⟩
        constructor
        · cases t <;> cases r <;>
            simp [emitSegments, hc, hasPair_cons_iff, ih1]
        · cases t <;> cases r <;>
            · simp only [emitSegments, hc, Bool.false_eq_true, if_true, if_false,
                List.nil_append, List.cons_append, List.getLast?_cons_cons]
              rw [show (StreamPart.textDelta content
                    :: (emitSegments true false rest).2.2)
                  = [StreamPart.textDelta content]
                    ++ (emitSegments true false rest).2.2 from rfl,
                List.getLast?_append]
              exact or_ne_textStart _ _ ih2 (by simp)

theorem toolParts_no_pair (l : List ParsedToolCall) :
    hasEmptyTextPair (l.map toolCallParts).flatten ≠ true ∧
    ((l.map toolCallParts).flatten).getLast? ≠ some StreamPart.textStart := by
  constructor
  · intro h
    induction l with
    | nil => simp [hasEmptyTextPair] at h
    | cons tc rest ih =>
      simp only [List.map_cons, List.flatten_cons, toolCallParts,
        List.cons_append, List.nil_append, hasPair_cons_iff] at h
      rcases h with ⟨h, -⟩ | ⟨h, -⟩ | ⟨h, -⟩ | ⟨h, -⟩ | h
      · exact absurd h (by simp)
      · exact absurd h (by simp)
      · exact absurd h (by simp)
      · exact absurd h (by simp)
      · exact ih h
  · intro h
    have hm := List.mem_of_mem_getLast? h
    have := toolParts_tool l _ hm
    simp [isToolPart] at this

/-- Claim C3, counterexample: a session whose only content event is
`<think>r` opens (and closes) a reasoning block, yet the terminal
finalization still emits the degenerate empty plain-text open+close pair —
the code's condition is "no plain-text block open at finalization", not
"no block was ever opened during the whole session", so the claimed
equivalence fails at this input. -/
theorem claim_C3_counterexample :
    (hasEmptyTextPair (runCoord [] (fun _ => "") (fun _ => none) (fun _ => "")
        CoordState.init
        [ParseChunk.value (DifyEvent.message "<think>r".data none),
         ParseChunk.value (DifyEvent.workflowFinished none)]).2 = true) ∧
    (StreamPart.reasoningStart ∈ (runCoord [] (fun _ => "") (fun _ => none)
        (fun _ => "") CoordState.init
        [ParseChunk.value (DifyEvent.message "<think>r".data none),
         ParseChunk.value (DifyEvent.workflowFinished none)]).2) := by
  decide

theorem parseToolCalls_nil (names : List String) (gen : Nat → String) (baseId : Nat)
    (jp : String → Option JsValue) (jstr : JsValue → String) :
    parseToolCalls [] names gen baseId jp jstr = ⟨[], []⟩ := by
  cases names with
  | nil => rfl
  | cons n ns => rfl

/-- The degenerate-pair criterion on the abstract shape of the finalization
output: flush parts, optional reasoning close, text close or degenerate
pair, tool quadruples, one finish. -/
theorem pair_iff_shape (a : List StreamPart) (emT emR hasTC : Bool)
    (calls : List ParsedToolCall) (rsn : FinishReason) (u : Usage)
    (ha1 : hasEmptyTextPair a ≠ true)
    (ha2 : a.getLast? ≠ some StreamPart.textStart) :
    (hasEmptyTextPair
      ((((a ++ (if emR then [StreamPart.reasoningEnd] else [])) ++
         (if emT then [StreamPart.textEnd]
          else if !hasTC then [StreamPart.textStart, StreamPart.textEnd]
          else [])) ++
        (calls.map toolCallParts).flatten) ++ [StreamPart.finish rsn u]) = true)
      ↔ (emT = false ∧ hasTC = false) := by
  have hD := toolParts_no_pair calls
  cases emT <;> cases emR <;> cases hasTC <;>
    simp [hasPair_append_iff, hasPair_cons_iff, hasEmptyTextPair,
      List.getLast?_append, ha1, ha2, hD.1, hD.2]

/-- The degenerate-pair behavior of one finalization, for every session
state: the empty open+close pair appears in the emitted parts exactly when
the plain-text block is not open after the terminal flush and the
extraction found no tool call. -/
theorem finalize_hasPair_iff (toolNames : List String) (gen : Nat → String)
    (jp : String → Option JsValue) (jstr : JsValue → String)
    (s : CoordState) (u : Usage) :
    (hasEmptyTextPair (finalize toolNames gen jp jstr s u).2 = true) ↔
      (textActiveAfterFlush s = false ∧
       (parseToolCalls s.parser.getTextWithoutThink toolNames gen s.nextId
          jp jstr).toolCalls = []) := by
  have hA := emitSegments_no_pair (s.parser.flush).2 s.isActiveText s.isActiveReasoning
  have h := pair_iff_shape
    (emitSegments s.isActiveText s.isActiveReasoning (s.parser.flush).2).2.2
    (emitSegments s.isActiveText s.isActiveReasoning (s.parser.flush).2).1
    (emitSegments s.isActiveText s.isActiveReasoning (s.parser.flush).2).2.1
    (!(parseToolCalls s.parser.getTextWithoutThink toolNames gen s.nextId
        jp jstr).toolCalls.isEmpty)
    (parseToolCalls s.parser.getTextWithoutThink toolNames gen s.nextId
        jp jstr).toolCalls
    (if (!(parseToolCalls s.parser.getTextWithoutThink toolNames gen s.nextId
          jp jstr).toolCalls.isEmpty) = true
     then FinishReason.toolCalls else FinishReason.stop)
    u hA.1 hA.2
  simp only [finalize, textActiveAfterFlush]
  rw [h]
  simp [List.isEmpty_iff]

/-- Claim C3 (amended): at terminal finalization the Coordinator emits the
degenerate empty open+close pair on the plain-text channel if and only if
the plain-text block is not open once the terminal flush has been applied
and no tool call was found — not "if no block was ever opened during the
whole session" (a session that only ever opened a reasoning block also
receives the pair); in particular a session with zero content events and
one terminal event emits exactly one empty plain-text open+close pair
followed by the finish event. -/
theorem claim_C3 :
    (∀ (toolNames : List String) (gen : Nat → String) (jp : String → Option JsValue)
        (jstr : JsValue → String) (s : CoordState) (tt : Option Nat),
      (hasEmptyTextPair (transform toolNames gen jp jstr s
          (ParseChunk.value (DifyEvent.workflowFinished tt))).2 = true) ↔
        (textActiveAfterFlush s = false ∧
         (parseToolCalls s.parser.getTextWithoutThink toolNames gen s.nextId
            jp jstr).toolCalls = [])) ∧
    (∀ (toolNames : List String) (gen : Nat → String) (jp : String → Option JsValue)
        (jstr : JsValue → String) (s : CoordState) (u : MessageEndUsage),
      (hasEmptyTextPair (transform toolNames gen jp jstr s
          (ParseChunk.value (DifyEvent.messageEnd u))).2 = true) ↔
        (textActiveAfterFlush s = false ∧
         (parseToolCalls s.parser.getTextWithoutThink toolNames gen s.nextId
            jp jstr).toolCalls = [])) ∧
    (∀ (toolNames : List String) (gen : Nat → String) (jp : String → Option JsValue)
        (jstr : JsValue → String) (tt : Option Nat),
      (runCoord toolNames gen jp jstr CoordState.init
          [ParseChunk.value (DifyEvent.workflowFinished tt)]).2
        = [StreamPart.textStart, StreamPart.textEnd,
           StreamPart.finish FinishReason.stop ⟨0, tt.getD 0, tt.getD 0⟩]) := by
  refine ⟨?_, ?_, ?_⟩
  · intro toolNames gen jp jstr s tt
    exact finalize_hasPair_iff toolNames gen jp jstr s _
  · intro toolNames gen jp jstr s u
    exact finalize_hasPair_iff toolNames gen jp jstr s _
  · intro toolNames gen jp jstr tt
    simp [runCoord, transform, finalize, CoordState.init, ThinkTagParser.init,
      ThinkTagParser.flush, emitSegments, ThinkTagParser.getTextWithoutThink,
      jsTrim, parseToolCalls_nil]

/-! ### Claim C7 -/

/-- Claim C7: a terminal event of the aggregate-usage shape
(`workflow_finished` carrying only `data.total_tokens`) finishes with
`inputTokens = 0` and `outputTokens = totalTokens =` the aggregate count
(so `total_tokens = 42` yields `(0, 42, 42)`), and a terminal event of the
separated-usage shape (`message_end` with `prompt_tokens`,
`completion_tokens`, `total_tokens`) finishes with exactly those three
numbers (so `5, 7, 12` yields `(5, 7, 12)`); absent fields default to 0. -/
theorem claim_C7 :
    (∀ (toolNames : List String) (gen : Nat → String) (jp : String → Option JsValue)
        (jstr : JsValue → String) (s : CoordState) (tt : Option Nat),
      finishUsages (transform toolNames gen jp jstr s
          (ParseChunk.value (DifyEvent.workflowFinished tt))).2
        = [⟨0, tt.getD 0, tt.getD 0⟩]) ∧
    (∀ (toolNames : List String) (gen : Nat → String) (jp : String → Option JsValue)
        (jstr : JsValue → String) (s : CoordState) (pt ct tt : Option Nat),
      finishUsages (transform toolNames gen jp jstr s
          (ParseChunk.value (DifyEvent.messageEnd ⟨pt, ct, tt⟩))).2
        = [⟨pt.getD 0, ct.getD 0, tt.getD 0⟩]) := by
  constructor
  · intro toolNames gen jp jstr s tt
    simpa only [transform] using finalize_finishUsages toolNames gen jp jstr s _
  · intro toolNames gen jp jstr s pt ct tt
    simpa only [transform] using finalize_finishUsages toolNames gen jp jstr s _

end Dify
